import Mathlib

/-!
Shallow embedding of the workspace manager in src/src/main.rs.

Paths are modelled as strings, the filesystem as a boolean presence
predicate, and every subprocess invocation as a pure trace value.  The
external collaborators (git subprocess, url crate, directory listing)
enter as explicit environment records holding their observable outcomes,
so that `add`, `remove`, `scan` and the sync operations become pure
functions translated clause by clause from the Rust source.
-/

/-- Rust enum Provider (main.rs lines 6-10): closed set of hosting services. -/
inductive Provider
  | Github
deriving DecidableEq, BEq, Repr

/-- Provider::from (main.rs lines 35-41): host-name to provider resolution; the
bare name and the fully qualified domain both resolve to Github. -/
def Provider.fromName : String → Option Provider
  | "github" => some Provider.Github
  | "github.com" => some Provider.Github
  | _ => none

/-- Provider::get_url (main.rs lines 43-47): the constant base URL per tag. -/
def Provider.get_url : Provider → String
  | Provider.Github => "https://github.com"

/-- One call of the git helper (main.rs lines 12-21): the argument list and
the optional working directory (none means the current working directory). -/
structure GitInvocation where
  args : List String
  workdir : Option String
deriving DecidableEq, Repr

/-- Rust struct Repository (main.rs lines 23-26). -/
structure Repository where
  local_path : String
  git_path : String
deriving DecidableEq, Repr

/-- Repository::exists_local (main.rs lines 29-31), with the filesystem as an
explicit presence predicate. -/
def Repository.exists_local (fs : String → Bool) (r : Repository) : Bool :=
  fs r.local_path

/-- Provider::git_pull (main.rs lines 49-56): trace of the delegated call. -/
def Provider.git_pull (p : Provider) (repo : Repository) : List GitInvocation :=
  match p with
  | Provider.Github => [⟨["pull"], some repo.local_path⟩]

/-- Provider::git_clone (main.rs lines 58-66): builds baseURL/remote-path and
invokes clone with no working directory (the current one). -/
def Provider.git_clone (p : Provider) (repo : Repository) : List GitInvocation :=
  let url := p.get_url ++ "/" ++ repo.git_path
  match p with
  | Provider.Github => [⟨["clone", url], none⟩]

/-- Provider::git_fetch (main.rs lines 68-75). -/
def Provider.git_fetch (p : Provider) (repo : Repository) : List GitInvocation :=
  match p with
  | Provider.Github => [⟨["fetch"], some repo.local_path⟩]

/-- Rust struct Project (main.rs lines 78-84). -/
structure Project where
  provider : Provider
  path : String
  cmd : List String
deriving DecidableEq, Repr

/-- Last slash-separated component of a path (Path::file_name). -/
def pathFileName (p : String) : String :=
  (p.split (fun c => c = '/')).getLastD ""

/-- Characters before the last dot of a list, the whole list when it has no
dot. -/
def beforeLastDot (cs : List Char) : List Char :=
  if cs.contains '.' then ((cs.reverse.dropWhile (fun c => c ≠ '.')).drop 1).reverse
  else cs

/-- Path::file_stem on a file name: the part before the last dot, except that
a lone leading dot (hidden file) is not a separator. -/
def fileStem (nm : String) : String :=
  match nm.toList with
  | [] => ""
  | c0 :: rest =>
    if rest.contains '.' then (c0 :: beforeLastDot rest).asString
    else nm

/-- PathBuf::join for our string paths: an absolute right side replaces the
left side. -/
def joinPath (a b : String) : String :=
  if b.startsWith "/" then b else a ++ "/" ++ b

/-- Project::get_absolute_path (main.rs lines 94-102): current directory
joined with the file stem of the remote path. -/
def Project.get_absolute_path (cwd : String) (p : Project) : String :=
  joinPath cwd (fileStem (pathFileName p.path))

/-- Project::get_repository (main.rs lines 108-113). -/
def Project.get_repository (cwd : String) (p : Project) : Repository :=
  { local_path := p.get_absolute_path cwd, git_path := p.path }

/-- Outcome of std::process::Output for a spawned build process. -/
structure SpawnOutput where
  status : Int
  outText : String
  errText : String
deriving DecidableEq, Repr

/-- One build-process spawn: program, arguments, working directory. -/
structure SpawnCall where
  program : String
  args : List String
  workdir : String
deriving DecidableEq, Repr

/-- Project::build (main.rs lines 115-129): empty cmd is a no-op; one element
spawns it with no arguments; otherwise the tail is the argument list.  The
result of the spawn is discarded by and_then, only spawn failure surfaces. -/
def Project.build (spawn : SpawnCall → Except String SpawnOutput)
    (cwd : String) (p : Project) : Except String Unit :=
  match p.cmd with
  | [] => Except.ok ()
  | [c0] => (spawn ⟨c0, [], p.get_absolute_path cwd⟩).bind (fun _ => Except.ok ())
  | c0 :: rest => (spawn ⟨c0, rest, p.get_absolute_path cwd⟩).bind (fun _ => Except.ok ())

/-- The Git trait impl for Project, git_pull (main.rs lines 133-140): delegate
when the local path exists, otherwise an informational no-op. -/
def Project.git_pull (fs : String → Bool) (cwd : String) (p : Project) : List GitInvocation :=
  let repo := p.get_repository cwd
  if repo.exists_local fs then p.provider.git_pull repo else []

/-- Git trait impl for Project, git_clone (main.rs lines 142-149). -/
def Project.git_clone (fs : String → Bool) (cwd : String) (p : Project) : List GitInvocation :=
  let repo := p.get_repository cwd
  if !repo.exists_local fs then p.provider.git_clone repo else []

/-- Git trait impl for Project, git_fetch (main.rs lines 151-158). -/
def Project.git_fetch (fs : String → Bool) (cwd : String) (p : Project) : List GitInvocation :=
  let repo := p.get_repository cwd
  if repo.exists_local fs then p.provider.git_fetch repo else []

/-- Git trait impl for Project, git_sync (main.rs lines 160-166): pull when
present, clone when absent. -/
def Project.git_sync (fs : String → Bool) (cwd : String) (p : Project) : List GitInvocation :=
  if (p.get_repository cwd).exists_local fs then p.git_pull fs cwd
  else p.git_clone fs cwd

/-- Rust struct Workspace (main.rs lines 169-173). -/
structure Workspace where
  projects : List Project
deriving DecidableEq, Repr

/-- The dedup key test used by both add and remove (main.rs lines 212, 253):
p.path == path && p.provider == provider. -/
def Project.keyIs (p : Project) (pa : String) (pr : Provider) : Bool :=
  p.path == pa && p.provider == pr

/-- A parsed remote URL through the url crate: host_str and path component. -/
structure ParsedUrl where
  host : Option String
  urlPath : String
deriving DecidableEq, Repr

/-- String::trim_start_matches with a single-character pattern: every leading
occurrence is removed. -/
def trimStartMatchesChar (c : Char) (s : String) : String :=
  (s.toList.dropWhile (fun x => x = c)).asString

/-- The cmd parsing inside add (main.rs lines 202-206): split on single
spaces, empty when no command was given. -/
def parseCmd : Option String → List String
  | some c => c.split (fun ch => ch = ' ')
  | none => []

/-- Observable outcomes of the external steps Workspace::add performs:
env::current_dir, the .git existence check, the git config remote query, and
url::Url::parse of the queried remote string. -/
structure AddEnv where
  currentDir : Option String
  gitDirExists : Bool
  remoteQueryOk : Bool
  parsed : Option ParsedUrl
deriving DecidableEq, Repr

/-- Workspace::add (main.rs lines 191-247): the nested fall-through ladder.
Every recoverable failure leaves the list unchanged and still returns ok; the
only error is env::current_dir failing at the question mark operator. -/
def Workspace.add (env : AddEnv) (cmdOpt : Option String) (ws : Workspace) :
    Except String Workspace :=
  match env.currentDir with
  | none => Except.error "could not get current dir"
  | some _ =>
    Except.ok <|
      if env.gitDirExists then
        if env.remoteQueryOk then
          match env.parsed with
          | some url =>
            match url.host with
            | some host =>
              match Provider.fromName host with
              | some provider =>
                let cmd := parseCmd cmdOpt
                let path := trimStartMatchesChar '/' url.urlPath
                if (ws.projects.findIdx? (fun p => p.keyIs path provider)).isNone then
                  { projects := ws.projects ++ [{ provider := provider, path := path, cmd := cmd }] }
                else ws
              | none => ws
            | none => ws
          | none => ws
        else ws
      else ws

/-- Workspace::remove (main.rs lines 249-258): position of the first key
match, then Vec::remove at that index; silently nothing when absent. -/
def Workspace.remove (pa : String) (pr : Provider) (ws : Workspace) : Workspace :=
  match ws.projects.findIdx? (fun p => p.keyIs pa pr) with
  | some i => { projects := ws.projects.eraseIdx i }
  | none => ws

/-- The .ok() discard of the add result used by scan and by the CLI add arm:
on error the workspace is unchanged, on success the new workspace stands. -/
def Workspace.addOk (env : AddEnv) (cmdOpt : Option String) (ws : Workspace) : Workspace :=
  match Workspace.add env cmdOpt ws with
  | Except.ok w => w
  | Except.error _ => ws

/-- fs::metadata result as scan consults it. -/
structure Metadata where
  is_file : Bool
deriving DecidableEq, Repr

/-- One fs::read_dir entry as scan consumes it: its path, its metadata query
outcome, and the add environment its recursive add call would observe. -/
structure DirEntry where
  entryPath : String
  metadata : Except String Metadata
  addEnv : AddEnv
deriving Repr

/-- Observable outcomes of the external steps Workspace::scan performs. -/
structure ScanEnv where
  currentDir : Option String
  readDir : Except String (List (Except String DirEntry))
deriving Repr

/-- The entry loop of Workspace::scan (main.rs lines 269-277): an entry error
or a metadata error returns immediately with that error; a non-file entry is
passed to add with its result discarded by .ok(). -/
def scanEntries : List (Except String DirEntry) → Workspace → Workspace × Option String
  | [], ws => (ws, none)
  | Except.error e :: _, ws => (ws, some e)
  | Except.ok ent :: rest, ws =>
    match ent.metadata with
    | Except.error e => (ws, some e)
    | Except.ok md =>
      if !md.is_file then scanEntries rest (Workspace.addOk ent.addEnv none ws)
      else scanEntries rest ws

/-- Workspace::scan (main.rs lines 260-280): current_dir and read_dir behind
question-mark operators, then the entry loop. -/
def Workspace.scan (env : ScanEnv) (ws : Workspace) : Workspace × Option String :=
  match env.currentDir with
  | none => (ws, some "could not get current dir")
  | some _ =>
    match env.readDir with
    | Except.error e => (ws, some e)
    | Except.ok entries => scanEntries entries ws

/-- A reconciliation step as the CLI dispatch applies it (main.rs lines
383-398): add and scan discard their io result with .ok(), remove is plain. -/
inductive WsOp
  | addOp (env : AddEnv) (cmdOpt : Option String)
  | removeOp (pa : String) (pr : Provider)
  | scanOp (env : ScanEnv)

/-- Apply one reconciliation step to the in-memory workspace. -/
def applyOp : WsOp → Workspace → Workspace
  | WsOp.addOp env c, ws => Workspace.addOk env c ws
  | WsOp.removeOp pa pr, ws => Workspace.remove pa pr ws
  | WsOp.scanOp env, ws => (Workspace.scan env ws).1

/-- Apply a sequence of reconciliation steps in order. -/
def applyOps (ops : List WsOp) (ws : Workspace) : Workspace :=
  ops.foldl (fun w op => applyOp op w) ws

/-- The workspace invariant: no two projects share the (provider, path) key. -/
def Workspace.NodupKeys (ws : Workspace) : Prop :=
  ws.projects.Pairwise (fun a b => ¬(a.path = b.path ∧ a.provider = b.provider))

/-! Helper lemmas shared by the claim theorems. -/

/-- The boolean dedup key test decides key equality. -/
theorem Project.keyIs_iff (p : Project) (pa : String) (pr : Provider) :
    p.keyIs pa pr = true ↔ p.path = pa ∧ p.provider = pr := by
  cases p with
  | mk prov pth cm =>
    cases prov
    cases pr
    simp [Project.keyIs]

/-- Removing the element at the first matching index is eraseP. -/
theorem removeList_eq_eraseP (p : Project → Bool) (l : List Project) :
    (match List.findIdx? p l with
     | some i => l.eraseIdx i
     | none => l) = List.eraseP p l := by
  induction l with
  | nil => rfl
  | cons a l ih =>
    rw [List.findIdx?_cons]
    by_cases h : p a = true
    · simp [h, List.eraseP_cons_of_pos h]
    · rw [if_neg h, List.findIdx?_succ, List.eraseP_cons_of_neg h]
      cases hf : List.findIdx? p l with
      | none =>
        rw [hf] at ih
        simpa using ih
      | some i =>
        rw [hf] at ih
        simpa using ih

/-- Workspace.remove acts on the project list as eraseP with the key test. -/
theorem Workspace.remove_projects (pa : String) (pr : Provider) (ws : Workspace) :
    (Workspace.remove pa pr ws).projects =
      ws.projects.eraseP (fun q => q.keyIs pa pr) := by
  unfold Workspace.remove
  rw [← removeList_eq_eraseP]
  cases List.findIdx? (fun q => q.keyIs pa pr) ws.projects with
  | none => rfl
  | some i => rfl

/-- Character list of the trimmed string: dropWhile on the original. -/
theorem trimStartMatchesChar_toList (c : Char) (s : String) :
    (trimStartMatchesChar c s).toList = s.toList.dropWhile (fun x => x = c) := rfl

/-- The original character list is a block of copies of c followed by the
trimmed remainder. -/
theorem trimStartMatchesChar_replicate (c : Char) (s : String) :
    ∃ k, s.toList = List.replicate k c ++ (trimStartMatchesChar c s).toList := by
  refine ⟨(s.toList.takeWhile (fun x => x = c)).length, ?_⟩
  rw [trimStartMatchesChar_toList]
  have h1 : s.toList.takeWhile (fun x => x = c) =
      List.replicate (s.toList.takeWhile (fun x => x = c)).length c := by
    rw [List.eq_replicate_iff]
    refine ⟨rfl, fun b hb => ?_⟩
    have hmem := List.mem_takeWhile_imp hb
    simpa using hmem
  conv_lhs => rw [← List.takeWhile_append_dropWhile (fun x => decide (x = c)) s.toList]
  rw [← h1]

/-- Dropping every leading c leaves a list that does not start with c. -/
theorem head?_dropWhile_ne (c : Char) (l : List Char) :
    (l.dropWhile (fun x => x = c)).head? ≠ some c := by
  induction l with
  | nil => simp
  | cons a l ih =>
    by_cases h : a = c
    · simpa [List.dropWhile, h] using ih
    · simp [List.dropWhile, h]

/-- Every run of add either keeps the project list or appends one fresh
project whose key was absent. -/
theorem addOk_cases (env : AddEnv) (c : Option String) (ws : Workspace) :
    Workspace.addOk env c ws = ws ∨
    ∃ pr pa,
      (ws.projects.findIdx? (fun p => p.keyIs pa pr)).isNone = true ∧
      Workspace.addOk env c ws =
        { projects := ws.projects ++ [{ provider := pr, path := pa, cmd := parseCmd c }] } := by
  rcases env with ⟨cd, gde, rqo, par⟩
  cases cd with
  | none => left; rfl
  | some d =>
    cases gde with
    | false => left; rfl
    | true =>
      cases rqo with
      | false => left; rfl
      | true =>
        cases par with
        | none => left; rfl
        | some url =>
          rcases url with ⟨hostOpt, upath⟩
          cases hostOpt with
          | none => left; rfl
          | some host =>
            cases hp : Provider.fromName host with
            | none =>
              left
              simp [Workspace.addOk, Workspace.add, hp]
            | some pr =>
              by_cases hfind :
                  (ws.projects.findIdx?
                    (fun p => p.keyIs (trimStartMatchesChar '/' upath) pr)).isNone = true
              · right
                refine ⟨pr, trimStartMatchesChar '/' upath, hfind, ?_⟩
                simp [Workspace.addOk, Workspace.add, hp, hfind]
              · left
                simp [Workspace.addOk, Workspace.add, hp, hfind]

/-- addOk preserves the dedup invariant. -/
theorem nodupKeys_addOk (env : AddEnv) (c : Option String) (ws : Workspace)
    (h : ws.NodupKeys) : (Workspace.addOk env c ws).NodupKeys := by
  rcases addOk_cases env c ws with heq | ⟨pr, pa, hfind, heq⟩
  · rw [heq]; exact h
  · rw [heq]
    unfold Workspace.NodupKeys at h ⊢
    rw [List.pairwise_append]
    refine ⟨h, List.pairwise_singleton _ _, ?_⟩
    intro a ha b hb
    simp only [List.mem_singleton] at hb
    subst hb
    rw [Option.isNone_iff_eq_none, List.findIdx?_eq_none_iff] at hfind
    have hk := hfind a ha
    intro hcon
    have : a.keyIs pa pr = true := by
      rw [Project.keyIs_iff]
      exact hcon
    rw [hk] at this
    exact Bool.false_ne_true this

/-- remove preserves the dedup invariant. -/
theorem nodupKeys_remove (pa : String) (pr : Provider) (ws : Workspace)
    (h : ws.NodupKeys) : (Workspace.remove pa pr ws).NodupKeys := by
  unfold Workspace.NodupKeys at h ⊢
  rw [Workspace.remove_projects]
  exact List.Pairwise.sublist (List.eraseP_sublist _) h

/-- The scan entry loop preserves the dedup invariant. -/
theorem nodupKeys_scanEntries (entries : List (Except String DirEntry)) :
    ∀ ws : Workspace, ws.NodupKeys → ((scanEntries entries ws).1).NodupKeys := by
  induction entries with
  | nil => intro ws h; exact h
  | cons head rest ih =>
    intro ws h
    cases head with
    | error e => exact h
    | ok ent =>
      cases hm : ent.metadata with
      | error e => simp [scanEntries, hm]; exact h
      | ok md =>
        by_cases hf : md.is_file = true
        · simpa [scanEntries, hm, hf] using ih ws h
        · have hf2 : md.is_file = false := by
            cases hmd : md.is_file
            · rfl
            · exact absurd hmd hf
          simpa [scanEntries, hm, hf2] using
            ih (Workspace.addOk ent.addEnv none ws) (nodupKeys_addOk ent.addEnv none ws h)

/-- scan preserves the dedup invariant. -/
theorem nodupKeys_scan (env : ScanEnv) (ws : Workspace)
    (h : ws.NodupKeys) : ((Workspace.scan env ws).1).NodupKeys := by
  unfold Workspace.scan
  cases env.currentDir with
  | none => exact h
  | some d =>
    cases env.readDir with
    | error e => exact h
    | ok entries => exact nodupKeys_scanEntries entries ws h

/-- Every single reconciliation step preserves the dedup invariant. -/
theorem nodupKeys_applyOp (op : WsOp) (ws : Workspace)
    (h : ws.NodupKeys) : (applyOp op ws).NodupKeys := by
  cases op with
  | addOp env c => exact nodupKeys_addOk env c ws h
  | removeOp pa pr => exact nodupKeys_remove pa pr ws h
  | scanOp env => exact nodupKeys_scan env ws h

/-- Every sequence of reconciliation steps preserves the dedup invariant. -/
theorem nodupKeys_applyOps (ops : List WsOp) :
    ∀ ws : Workspace, ws.NodupKeys → (applyOps ops ws).NodupKeys := by
  induction ops with
  | nil => intro ws h; exact h
  | cons op ops ih =>
    intro ws h
    exact ih (applyOp op ws) (nodupKeys_applyOp op ws h)

/-- Erasing the first match from a decomposed list drops exactly that
element and keeps the order of the rest. -/
theorem eraseP_append_of_first {α : Type} (p : α → Bool) :
    ∀ (l1 : List α) (m : α) (l2 : List α),
      (∀ x ∈ l1, p x = false) → p m = true →
      List.eraseP p (l1 ++ m :: l2) = l1 ++ l2 := by
  intro l1
  induction l1 with
  | nil =>
    intro m l2 h1 hm
    simpa using List.eraseP_cons_of_pos hm
  | cons a l1 ih =>
    intro m l2 h1 hm
    have ha : ¬p a = true := by
      rw [h1 a (List.mem_cons_self a l1)]
      exact Bool.false_ne_true
    rw [List.cons_append, List.eraseP_cons_of_neg ha, List.cons_append,
      ih m l2 (fun x hx => h1 x (List.mem_cons_of_mem a hx)) hm]

/-- The success path of add with a fresh key: the parsed project is appended. -/
theorem add_success (env : AddEnv) (c : Option String) (ws : Workspace)
    (d : String) (u : ParsedUrl) (h : String) (pr : Provider)
    (hcd : env.currentDir = some d) (hgde : env.gitDirExists = true)
    (hrqo : env.remoteQueryOk = true) (hpar : env.parsed = some u)
    (hhost : u.host = some h) (hpv : Provider.fromName h = some pr)
    (hfresh : (ws.projects.findIdx?
        (fun p => p.keyIs (trimStartMatchesChar '/' u.urlPath) pr)).isNone = true) :
    Workspace.add env c ws =
      Except.ok { projects := ws.projects ++
        [{ provider := pr, path := trimStartMatchesChar '/' u.urlPath,
           cmd := parseCmd c }] } := by
  simp [Workspace.add, hcd, hgde, hrqo, hpar, hhost, hpv, hfresh]

/-- The duplicate path of add: a present key leaves the list unchanged. -/
theorem add_dup (env : AddEnv) (c : Option String) (ws : Workspace)
    (d : String) (u : ParsedUrl) (h : String) (pr : Provider)
    (hcd : env.currentDir = some d) (hgde : env.gitDirExists = true)
    (hrqo : env.remoteQueryOk = true) (hpar : env.parsed = some u)
    (hhost : u.host = some h) (hpv : Provider.fromName h = some pr)
    (hdup : (ws.projects.findIdx?
        (fun p => p.keyIs (trimStartMatchesChar '/' u.urlPath) pr)).isNone = false) :
    Workspace.add env c ws = Except.ok ws := by
  simp [Workspace.add, hcd, hgde, hrqo, hpar, hhost, hpv, hdup]

/-- A block of entries that all carry ok metadata is consumed without an
error, and the loop continues on the remainder from the updated state. -/
theorem scanEntries_append_ok (fine : List (Except String DirEntry)) :
    ∀ (ws : Workspace) (rest : List (Except String DirEntry)),
      (∀ x ∈ fine, ∃ ent md, x = Except.ok ent ∧ ent.metadata = Except.ok md) →
      scanEntries (fine ++ rest) ws = scanEntries rest (scanEntries fine ws).1 := by
  induction fine with
  | nil => intro ws rest hall; rfl
  | cons x fine ih =>
    intro ws rest hall
    obtain ⟨ent, md, hx, hmd⟩ := hall x (List.mem_cons_self x fine)
    subst hx
    by_cases hf : md.is_file = true
    · rw [List.cons_append]
      show scanEntries (Except.ok ent :: (fine ++ rest)) ws =
        scanEntries rest (scanEntries (Except.ok ent :: fine) ws).1
      simp only [scanEntries, hmd, hf]
      exact ih ws rest (fun y hy => hall y (List.mem_cons_of_mem _ hy))
    · have hf2 : md.is_file = false := by
        cases hmd2 : md.is_file
        · rfl
        · exact absurd hmd2 hf
      rw [List.cons_append]
      simp only [scanEntries, hmd, hf2]
      exact ih (Workspace.addOk ent.addEnv none ws) rest
        (fun y hy => hall y (List.mem_cons_of_mem _ hy))

/-- C3: gitPull and gitFetch delegate to the provider exactly when the local
path exists and are no-ops otherwise; gitClone delegates exactly when it is
absent and is a no-op otherwise; gitSync equals gitPull when present and
gitClone when absent, so no state mismatch can make it fail. -/
theorem claim_C3 (fs : String → Bool) (cwd : String) (p : Project) :
    ((p.get_repository cwd).exists_local fs = true →
      p.git_pull fs cwd = p.provider.git_pull (p.get_repository cwd) ∧
      p.git_fetch fs cwd = p.provider.git_fetch (p.get_repository cwd) ∧
      p.git_clone fs cwd = [] ∧
      p.git_sync fs cwd = p.git_pull fs cwd) ∧
    ((p.get_repository cwd).exists_local fs = false →
      p.git_pull fs cwd = [] ∧
      p.git_fetch fs cwd = [] ∧
      p.git_clone fs cwd = p.provider.git_clone (p.get_repository cwd) ∧
      p.git_sync fs cwd = p.git_clone fs cwd) := by
  constructor
  · intro h
    simp [Project.git_pull, Project.git_fetch, Project.git_clone, Project.git_sync, h]
  · intro h
    simp [Project.git_pull, Project.git_fetch, Project.git_clone, Project.git_sync, h]

/-- Witness for C3 at a concrete cloned project. -/
theorem claim_C3_witness :
    Project.git_pull (fun _ => true) "/w" ⟨Provider.Github, "octo/widget", []⟩ =
      Provider.git_pull Provider.Github
        (Project.get_repository "/w" ⟨Provider.Github, "octo/widget", []⟩) ∧
    Project.git_sync (fun _ => true) "/w" ⟨Provider.Github, "octo/widget", []⟩ =
      Project.git_pull (fun _ => true) "/w" ⟨Provider.Github, "octo/widget", []⟩ :=
  ⟨((claim_C3 (fun _ => true) "/w" ⟨Provider.Github, "octo/widget", []⟩).1 rfl).1,
   ((claim_C3 (fun _ => true) "/w" ⟨Provider.Github, "octo/widget", []⟩).1 rfl).2.2.2⟩

/-- C6: for a GitHub project whose local path is absent, the sync trace is a
single clone invocation whose URL is the base URL, a slash, and the remote
path, run in the current working directory; no pull or fetch appears. -/
theorem claim_C6 (fs : String → Bool) (cwd : String) (p : Project)
    (hpr : p.provider = Provider.Github)
    (habs : fs (p.get_absolute_path cwd) = false) :
    p.git_sync fs cwd = [⟨["clone", "https://github.com" ++ "/" ++ p.path], none⟩] ∧
    p.git_clone fs cwd = [⟨["clone", "https://github.com" ++ "/" ++ p.path], none⟩] ∧
    ∀ inv ∈ p.git_sync fs cwd, inv.args.head? = some "clone" ∧ inv.workdir = none := by
  have hexists : (p.get_repository cwd).exists_local fs = false := habs
  have hclone : p.git_clone fs cwd =
      [⟨["clone", "https://github.com" ++ "/" ++ p.path], none⟩] := by
    simp [Project.git_clone, Repository.exists_local, Project.get_repository, habs,
      Provider.git_clone, hpr, Provider.get_url]
  have hsync : p.git_sync fs cwd =
      [⟨["clone", "https://github.com" ++ "/" ++ p.path], none⟩] := by
    rw [Project.git_sync, if_neg (by simp [Repository.exists_local,
      Project.get_repository, habs])]
    exact hclone
  refine ⟨hsync, hclone, ?_⟩
  intro inv hinv
  rw [hsync] at hinv
  simp only [List.mem_singleton] at hinv
  subst hinv
  exact ⟨rfl, rfl⟩

/-- Witness for C6 at a concrete uncloned GitHub project. -/
theorem claim_C6_witness :
    Project.git_sync (fun _ => false) "/w" ⟨Provider.Github, "octo/widget", []⟩ =
      [⟨["clone", "https://github.com" ++ "/" ++ "octo/widget"], none⟩] :=
  (claim_C6 (fun _ => false) "/w" ⟨Provider.Github, "octo/widget", []⟩ rfl rfl).1

/-- C7: build with an empty cmd is a trivial success; with a non-empty cmd it
spawns the head as the program with the tail as arguments in the derived
local path, succeeds whenever the spawn succeeds regardless of the process
outcome, and fails exactly when the spawn fails. -/
theorem claim_C7 (spawn : SpawnCall → Except String SpawnOutput) (cwd : String) (p : Project) :
    (p.cmd = [] → p.build spawn cwd = Except.ok ()) ∧
    (∀ c0 rest, p.cmd = c0 :: rest →
      (∀ outv, spawn ⟨c0, rest, p.get_absolute_path cwd⟩ = Except.ok outv →
        p.build spawn cwd = Except.ok ()) ∧
      (∀ e, spawn ⟨c0, rest, p.get_absolute_path cwd⟩ = Except.error e →
        p.build spawn cwd = Except.error e)) := by
  obtain ⟨pr, pa, cm⟩ := p
  constructor
  · intro h
    change cm = [] at h
    subst h
    rfl
  · intro c0 rest h
    change cm = c0 :: rest at h
    subst h
    cases rest with
    | nil =>
      constructor
      · intro outv hs
        simp [Project.build, Except.bind, hs]
      · intro e hs
        simp [Project.build, Except.bind, hs]
    | cons r1 rs =>
      constructor
      · intro outv hs
        simp [Project.build, Except.bind, hs]
      · intro e hs
        simp [Project.build, Except.bind, hs]

/-- Witness for C7: a two-element command whose spawn succeeds with a
non-zero exit status still builds fine. -/
theorem claim_C7_witness :
    Project.build (fun _ => Except.ok ⟨2, "", "broken"⟩) "/w"
      ⟨Provider.Github, "octo/widget", ["make", "all"]⟩ = Except.ok () :=
  ((claim_C7 (fun _ => Except.ok ⟨2, "", "broken"⟩) "/w"
      ⟨Provider.Github, "octo/widget", ["make", "all"]⟩).2 "make" ["all"] rfl).1
    ⟨2, "", "broken"⟩ rfl

/-- C4: when add reaches the dedup step, a present (provider, path) key
leaves the project list unchanged and a fresh key appends exactly one new
project; and every sequence of add, remove and scan steps preserves freedom
from duplicate keys. -/
theorem claim_C4 (env : AddEnv) (c : Option String) (ws : Workspace) :
    (∀ d u h pr, env.currentDir = some d → env.gitDirExists = true →
      env.remoteQueryOk = true → env.parsed = some u → u.host = some h →
      Provider.fromName h = some pr →
      ((∃ q ∈ ws.projects, q.keyIs (trimStartMatchesChar '/' u.urlPath) pr = true) →
        Workspace.add env c ws = Except.ok ws) ∧
      (¬(∃ q ∈ ws.projects, q.keyIs (trimStartMatchesChar '/' u.urlPath) pr = true) →
        Workspace.add env c ws = Except.ok { projects := ws.projects ++
          [{ provider := pr, path := trimStartMatchesChar '/' u.urlPath,
             cmd := parseCmd c }] })) ∧
    (∀ ops : List WsOp, ws.NodupKeys → (applyOps ops ws).NodupKeys) := by
  constructor
  · intro d u h pr hcd hgde hrqo hpar hhost hpv
    have hiff : (ws.projects.findIdx?
        (fun p => p.keyIs (trimStartMatchesChar '/' u.urlPath) pr)).isNone = true ↔
        ¬∃ q ∈ ws.projects, q.keyIs (trimStartMatchesChar '/' u.urlPath) pr = true := by
      rw [Option.isNone_iff_eq_none, List.findIdx?_eq_none_iff]
      constructor
      · rintro hall ⟨q, hq, hk⟩
        rw [hall q hq] at hk
        exact Bool.false_ne_true hk
      · intro hne x hx
        cases hxk : x.keyIs (trimStartMatchesChar '/' u.urlPath) pr
        · rfl
        · exact absurd ⟨x, hx, hxk⟩ hne
    constructor
    · intro hex
      have hdup : (ws.projects.findIdx?
          (fun p => p.keyIs (trimStartMatchesChar '/' u.urlPath) pr)).isNone = false := by
        cases hc : (ws.projects.findIdx?
            (fun p => p.keyIs (trimStartMatchesChar '/' u.urlPath) pr)).isNone
        · rfl
        · exact absurd hex (hiff.mp hc)
      exact add_dup env c ws d u h pr hcd hgde hrqo hpar hhost hpv hdup
    · intro hnex
      exact add_success env c ws d u h pr hcd hgde hrqo hpar hhost hpv (hiff.mpr hnex)
  · intro ops hnd
    exact nodupKeys_applyOps ops ws hnd

/-- Witness for C4: adding a fresh checkout to an empty workspace appends
exactly the parsed project. -/
theorem claim_C4_witness :
    Workspace.add ⟨some "/w", true, true, some ⟨some "github.com", "/octo/widget"⟩⟩
        none ⟨[]⟩ =
      Except.ok { projects := ([] : List Project) ++
        [{ provider := Provider.Github, path := trimStartMatchesChar '/' "/octo/widget",
           cmd := parseCmd none }] } :=
  (((claim_C4 ⟨some "/w", true, true, some ⟨some "github.com", "/octo/widget"⟩⟩
        none ⟨[]⟩).1 "/w" ⟨some "github.com", "/octo/widget"⟩ "github.com"
        Provider.Github rfl rfl rfl rfl rfl rfl).2 (by simp))

/-- C5: remove with an absent key leaves the project list unchanged and does
not fail; with a present key it removes the matching project and keeps the
relative order of the remaining ones. -/
theorem claim_C5 (pa : String) (pr : Provider) (ws : Workspace) :
    ((∀ q ∈ ws.projects, q.keyIs pa pr = false) → Workspace.remove pa pr ws = ws) ∧
    (∀ l1 m l2, ws.projects = l1 ++ m :: l2 →
      (∀ x ∈ l1, x.keyIs pa pr = false) → m.keyIs pa pr = true →
      (Workspace.remove pa pr ws).projects = l1 ++ l2) := by
  constructor
  · intro hall
    unfold Workspace.remove
    have hnone : ws.projects.findIdx? (fun q => q.keyIs pa pr) = none :=
      List.findIdx?_eq_none_iff.mpr (by simpa using hall)
    rw [hnone]
  · intro l1 m l2 hsplit h1 hm
    rw [Workspace.remove_projects, hsplit]
    exact eraseP_append_of_first _ l1 m l2 h1 hm

/-- Witness for C5: removing the first of two distinct projects keeps the
second in place. -/
theorem claim_C5_witness :
    (Workspace.remove "a/b" Provider.Github
        ⟨[⟨Provider.Github, "a/b", []⟩, ⟨Provider.Github, "c/d", []⟩]⟩).projects =
      ([] : List Project) ++ [⟨Provider.Github, "c/d", []⟩] :=
  ((claim_C5 "a/b" Provider.Github
      ⟨[⟨Provider.Github, "a/b", []⟩, ⟨Provider.Github, "c/d", []⟩]⟩).2
    [] ⟨Provider.Github, "a/b", []⟩ [⟨Provider.Github, "c/d", []⟩]
    rfl (by simp) (by decide))

/-- C9: remove deletes at most one project per call, namely the first key
match in declared order, so later duplicates of the same key survive a
single remove. -/
theorem claim_C9 (pa : String) (pr : Provider) (ws : Workspace) :
    ws.projects.length ≤ (Workspace.remove pa pr ws).projects.length + 1 ∧
    (∀ l1 m l2, ws.projects = l1 ++ m :: l2 →
      (∀ x ∈ l1, x.keyIs pa pr = false) → m.keyIs pa pr = true →
      (Workspace.remove pa pr ws).projects = l1 ++ l2 ∧
      ∀ x ∈ l2, x ∈ (Workspace.remove pa pr ws).projects) := by
  constructor
  · rw [Workspace.remove_projects]
    by_cases hex : ∃ a ∈ ws.projects, (fun q => q.keyIs pa pr) a = true
    · obtain ⟨a, ha, hpa⟩ := hex
      obtain ⟨a2, l1, l2, hnm, hp2, hl, he⟩ :=
        List.exists_of_eraseP (p := fun q => q.keyIs pa pr) ha hpa
      rw [he, hl]
      simp only [List.length_append, List.length_cons]
      omega
    · have hall : ∀ a ∈ ws.projects, ¬(fun q => q.keyIs pa pr) a = true := by
        intro a ha hk
        exact hex ⟨a, ha, hk⟩
      rw [List.eraseP_of_forall_not hall]
      omega
  · intro l1 m l2 hsplit h1 hm
    have heq : (Workspace.remove pa pr ws).projects = l1 ++ l2 := by
      rw [Workspace.remove_projects, hsplit]
      exact eraseP_append_of_first _ l1 m l2 h1 hm
    refine ⟨heq, ?_⟩
    intro x hx
    rw [heq]
    exact List.mem_append_right l1 hx

/-- Witness for C9: after one remove on a hand-made duplicate pair, the
later duplicate is still present. -/
theorem claim_C9_witness :
    (Workspace.remove "a/b" Provider.Github
        ⟨[⟨Provider.Github, "a/b", []⟩, ⟨Provider.Github, "a/b", ["x"]⟩]⟩).projects =
      ([] : List Project) ++ [⟨Provider.Github, "a/b", ["x"]⟩] ∧
    (⟨Provider.Github, "a/b", ["x"]⟩ : Project) ∈
      (Workspace.remove "a/b" Provider.Github
        ⟨[⟨Provider.Github, "a/b", []⟩, ⟨Provider.Github, "a/b", ["x"]⟩]⟩).projects :=
  have h9 := (claim_C9 "a/b" Provider.Github
      ⟨[⟨Provider.Github, "a/b", []⟩, ⟨Provider.Github, "a/b", ["x"]⟩]⟩).2
    [] ⟨Provider.Github, "a/b", []⟩ [⟨Provider.Github, "a/b", ["x"]⟩]
    rfl (by simp) (by decide)
  ⟨h9.1, h9.2 ⟨Provider.Github, "a/b", ["x"]⟩ (by simp)⟩

/-- C8: every recoverable failure inside add (no checkout, failed remote
query, unparseable URL, missing host, unknown provider) leaves the project
list unchanged and still returns success to the caller. -/
theorem claim_C8 (env : AddEnv) (c : Option String) (ws : Workspace) (d : String)
    (hcd : env.currentDir = some d)
    (hfail : env.gitDirExists = false ∨ env.remoteQueryOk = false ∨ env.parsed = none ∨
      (∃ u, env.parsed = some u ∧ u.host = none) ∨
      (∃ u h, env.parsed = some u ∧ u.host = some h ∧ Provider.fromName h = none)) :
    Workspace.add env c ws = Except.ok ws := by
  unfold Workspace.add
  rw [hcd]
  cases hgde : env.gitDirExists with
  | false => simp
  | true =>
    cases hrqo : env.remoteQueryOk with
    | false => simp
    | true =>
      cases hpar : env.parsed with
      | none => simp
      | some u =>
        cases hhost : u.host with
        | none => simp [hhost]
        | some hst =>
          cases hpv : Provider.fromName hst with
          | none => simp [hhost, hpv]
          | some pr =>
            exfalso
            rcases hfail with h | h | h | ⟨u2, hu2, hh2⟩ | ⟨u2, h2, hu2, hh2, hp2⟩
            · rw [h] at hgde
              exact Bool.false_ne_true hgde
            · rw [h] at hrqo
              exact Bool.false_ne_true hrqo
            · rw [h] at hpar
              exact Option.noConfusion hpar
            · rw [hpar] at hu2
              have hu3 : u = u2 := by
                injection hu2
              rw [← hu3] at hh2
              rw [hh2] at hhost
              exact Option.noConfusion hhost
            · rw [hpar] at hu2
              have hu3 : u = u2 := by
                injection hu2
              rw [← hu3] at hh2
              rw [hhost] at hh2
              have hh4 : hst = h2 := by
                injection hh2
              rw [← hh4] at hp2
              rw [hp2] at hpv
              exact Option.noConfusion hpv

/-- Witness for C8: a directory that is not a checkout is reported and the
workspace is returned unchanged with success. -/
theorem claim_C8_witness :
    Workspace.add ⟨some "/w", false, true, none⟩ none
        ⟨[⟨Provider.Github, "a/b", []⟩]⟩ =
      Except.ok ⟨[⟨Provider.Github, "a/b", []⟩]⟩ :=
  claim_C8 ⟨some "/w", false, true, none⟩ none ⟨[⟨Provider.Github, "a/b", []⟩]⟩
    "/w" rfl (Or.inl rfl)

/-- C10: scan ignores a failure of add on one entry and continues with the
next, but a read_dir failure, an entry failure, or a metadata failure makes
scan stop at that point with the error, skipping all remaining entries. -/
theorem claim_C10 (env : ScanEnv) (ws : Workspace) (d : String)
    (hcd : env.currentDir = some d) :
    (∀ e, env.readDir = Except.error e → Workspace.scan env ws = (ws, some e)) ∧
    (∀ entries, env.readDir = Except.ok entries →
      (∀ fine e rest, entries = fine ++ Except.error e :: rest →
        (∀ x ∈ fine, ∃ ent md, x = Except.ok ent ∧ ent.metadata = Except.ok md) →
        Workspace.scan env ws = ((scanEntries fine ws).1, some e)) ∧
      (∀ fine ent e rest, entries = fine ++ Except.ok ent :: rest →
        (∀ x ∈ fine, ∃ ent2 md, x = Except.ok ent2 ∧ ent2.metadata = Except.ok md) →
        ent.metadata = Except.error e →
        Workspace.scan env ws = ((scanEntries fine ws).1, some e))) ∧
    (∀ ent md rest w err, ent.metadata = Except.ok md → md.is_file = false →
      Workspace.add ent.addEnv none w = Except.error err →
      scanEntries (Except.ok ent :: rest) w = scanEntries rest w) := by
  refine ⟨?_, ?_, ?_⟩
  · intro e hrd
    rw [Workspace.scan, hcd, hrd]
  · intro entries hrd
    constructor
    · intro fine e rest hsplit hok
      have hscan : Workspace.scan env ws = scanEntries (fine ++ Except.error e :: rest) ws := by
        simp only [Workspace.scan, hcd, hrd, hsplit]
      rw [hscan, scanEntries_append_ok fine ws _ hok]
      rfl
    · intro fine ent e rest hsplit hok hmd
      have hscan : Workspace.scan env ws = scanEntries (fine ++ Except.ok ent :: rest) ws := by
        simp only [Workspace.scan, hcd, hrd, hsplit]
      rw [hscan, scanEntries_append_ok fine ws _ hok]
      show scanEntries (Except.ok ent :: rest) (scanEntries fine ws).1 = _
      simp [scanEntries, hmd]
  · intro ent md rest w err hmd hfile hadd
    show scanEntries (Except.ok ent :: rest) w = scanEntries rest w
    simp only [scanEntries, hmd, hfile]
    have haddok : Workspace.addOk ent.addEnv none w = w := by
      rw [Workspace.addOk, hadd]
    rw [haddok]
    simp

/-- Witness for C10: a failing directory entry stops the scan with that
error before any later entry is seen. -/
theorem claim_C10_witness :
    Workspace.scan ⟨some "/w", Except.ok [Except.error "boom"]⟩ ⟨[]⟩ =
      ((scanEntries [] ⟨[]⟩).1, some "boom") :=
  (((claim_C10 ⟨some "/w", Except.ok [Except.error "boom"]⟩ ⟨[]⟩ "/w" rfl).2.1
      [Except.error "boom"] rfl).1 [] "boom" [] rfl (by simp))

/-- Counterexample to C1 as stated: for the remote URL with host github.com
and URL path /octo/widget.git, add stores the path "octo/widget.git"; the
.git suffix does appear in the stored path, which is not "octo/widget". -/
theorem claim_C1_counterexample :
    Workspace.add ⟨some "/w", true, true, some ⟨some "github.com", "/octo/widget.git"⟩⟩
        none ⟨[]⟩ =
      Except.ok ⟨[⟨Provider.Github, "octo/widget.git", []⟩]⟩ ∧
    ("octo/widget.git" : String) ≠ "octo/widget" := by
  constructor
  · rfl
  · decide

/-- C1 amended: for a checkout whose remote URL parses with host github.com
and path /octo/widget.git, add produces the entry with provider GitHub and
stored path "octo/widget.git"; the .git suffix stays in the stored path and
is only stripped later when the local directory name is derived. -/
theorem claim_C1 (env : AddEnv) (c : Option String) (ws : Workspace) (d : String)
    (u : ParsedUrl) (hcd : env.currentDir = some d) (hgde : env.gitDirExists = true)
    (hrqo : env.remoteQueryOk = true) (hpar : env.parsed = some u)
    (hhost : u.host = some "github.com") (hpath : u.urlPath = "/octo/widget.git")
    (hfresh : (ws.projects.findIdx?
        (fun p => p.keyIs "octo/widget.git" Provider.Github)).isNone = true) :
    Workspace.add env c ws = Except.ok { projects := ws.projects ++
      [{ provider := Provider.Github, path := "octo/widget.git",
         cmd := parseCmd c }] } := by
  have htrim : trimStartMatchesChar '/' u.urlPath = "octo/widget.git" := by
    rw [hpath]
    decide
  have hfresh2 : (ws.projects.findIdx?
      (fun p => p.keyIs (trimStartMatchesChar '/' u.urlPath) Provider.Github)).isNone = true := by
    rw [htrim]
    exact hfresh
  have h1 := add_success env c ws d u "github.com" Provider.Github
    hcd hgde hrqo hpar hhost rfl hfresh2
  rw [htrim] at h1
  exact h1

/-- Witness for the amended C1 at a concrete environment. -/
theorem claim_C1_witness :
    Workspace.add ⟨some "/w", true, true, some ⟨some "github.com", "/octo/widget.git"⟩⟩
        none ⟨[]⟩ =
      Except.ok { projects := ([] : List Project) ++
        [{ provider := Provider.Github, path := "octo/widget.git",
           cmd := parseCmd none }] } :=
  claim_C1 ⟨some "/w", true, true, some ⟨some "github.com", "/octo/widget.git"⟩⟩
    none ⟨[]⟩ "/w" ⟨some "github.com", "/octo/widget.git"⟩
    rfl rfl rfl rfl rfl rfl rfl

/-- Counterexample to C2 as stated: for a URL path starting with two
slashes, the derived manifest path has lost both of them, not only the
first; the stored path is "octo/widget" and not "/octo/widget". -/
theorem claim_C2_counterexample :
    Workspace.add ⟨some "/w", true, true, some ⟨some "github.com", "//octo/widget"⟩⟩
        none ⟨[]⟩ =
      Except.ok ⟨[⟨Provider.Github, "octo/widget", []⟩]⟩ ∧
    ("octo/widget" : String) ≠ "/octo/widget" := by
  constructor
  · rfl
  · decide

/-- C2 amended: the derived manifest path is the URL path with every leading
slash removed (trim_start_matches strips the pattern repeatedly), so the
stored path never begins with a slash. -/
theorem claim_C2 (env : AddEnv) (c : Option String) (ws : Workspace) (d : String)
    (u : ParsedUrl) (h : String) (pr : Provider)
    (hcd : env.currentDir = some d) (hgde : env.gitDirExists = true)
    (hrqo : env.remoteQueryOk = true) (hpar : env.parsed = some u)
    (hhost : u.host = some h) (hpv : Provider.fromName h = some pr)
    (hfresh : (ws.projects.findIdx?
        (fun p => p.keyIs (trimStartMatchesChar '/' u.urlPath) pr)).isNone = true) :
    Workspace.add env c ws = Except.ok { projects := ws.projects ++
      [{ provider := pr, path := trimStartMatchesChar '/' u.urlPath,
         cmd := parseCmd c }] } ∧
    (∃ k, u.urlPath.toList =
      List.replicate k '/' ++ (trimStartMatchesChar '/' u.urlPath).toList) ∧
    (trimStartMatchesChar '/' u.urlPath).toList.head? ≠ some '/' := by
  refine ⟨add_success env c ws d u h pr hcd hgde hrqo hpar hhost hpv hfresh,
    trimStartMatchesChar_replicate '/' u.urlPath, ?_⟩
  rw [trimStartMatchesChar_toList]
  exact head?_dropWhile_ne '/' u.urlPath.toList

/-- Witness for the amended C2 at a double-slash URL path. -/
theorem claim_C2_witness :
    Workspace.add ⟨some "/w", true, true, some ⟨some "github.com", "//octo/widget"⟩⟩
        none ⟨[]⟩ =
      Except.ok { projects := ([] : List Project) ++
        [{ provider := Provider.Github, path := trimStartMatchesChar '/' "//octo/widget",
           cmd := parseCmd none }] } ∧
    (trimStartMatchesChar '/' "//octo/widget").toList.head? ≠ some '/' :=
  have h2 := claim_C2 ⟨some "/w", true, true, some ⟨some "github.com", "//octo/widget"⟩⟩
    none ⟨[]⟩ "/w" ⟨some "github.com", "//octo/widget"⟩ "github.com" Provider.Github
    rfl rfl rfl rfl rfl rfl rfl
  ⟨h2.1, h2.2.2⟩
